import Mathlib

/-!
Verification of the trajectory generation engine in
`scripts/trajectory_gen.py` (class `TrajectoryGeneration`).

The Python code is shallowly embedded: list-building loops become folds or
maps over `List ℚ` (exact rational arithmetic stands in for Python floats),
and the parts that genuinely need square roots or trigonometry
(`norm`, `norm2`, the circle parametrization, heading normalization)
are embedded over `ℝ`.  Code that raises a Python `ZeroDivisionError` is
embedded with `Option`.  Field names and function names follow the source.
-/

set_option autoImplicit false

namespace TrajGen

/-- Configuration attributes of `TrajectoryGeneration`, as set in
`__init__` and overridden in `__main__`.  `PUBLISH_RATE` and `FREQUENCY`
are Python ints; the remaining numeric attributes are floats, embedded
as `ℚ`. -/
structure Config where
  TRAJECTORY_REQUESTED_SPEED : ℚ
  PUBLISH_RATE : ℕ
  FREQUENCY : ℕ
  EXTRA_POINTS_START : ℕ
  EXTRA_POINTS_END : ℕ
  MAX_LINEAR_SPEED_XY : ℚ
  MAX_LINEAR_SPEED_Z : ℚ
  MAX_LINEAR_ACC_XY : ℚ
  MAX_LINEAR_ACC_Z : ℚ
  deriving Repr

/-- The per-sample step length `delta_l = self.TRAJECTORY_REQUESTED_SPEED / self.FREQUENCY`. -/
def Config.delta_l (cfg : Config) : ℚ :=
  cfg.TRAJECTORY_REQUESTED_SPEED / cfg.FREQUENCY

/-- Python `math.copysign(m, x)`: the magnitude of `m` with the sign of `x`.
Rationals have no negative zero, so `x = 0` carries positive sign, as
`+0.0` does in the source. -/
def copysign (m x : ℚ) : ℚ :=
  if x < 0 then -|m| else |m|

/-- Python `min(x, y, key=abs)`: the argument of smaller absolute value,
the first argument `x` on ties. -/
def minAbs (x y : ℚ) : ℚ :=
  if |y| < |x| then y else x

/-- `saturate(self, x, y)` from the source: `math.copysign(min(x, y, key=abs), x)`. -/
def saturate (x y : ℚ) : ℚ :=
  copysign (minAbs x y) x

/-- One pass of `constraint_trajectory_to_box` for the lower bound of one
axis: the list comprehension replacing every coordinate below the bound by
the bound. -/
def clampLow (lo : ℚ) (xs : List ℚ) : List ℚ :=
  xs.map (fun x => if x < lo then lo else x)

/-- One pass of `constraint_trajectory_to_box` for the upper bound of one
axis: the list comprehension replacing every coordinate above the bound by
the bound. -/
def clampHigh (hi : ℚ) (xs : List ℚ) : List ℚ :=
  xs.map (fun x => if x > hi then hi else x)

/-- Both passes of `constraint_trajectory_to_box` on one axis, in source
order: the lower clamp runs first, then the upper clamp runs on its
output. -/
def clampAxis (lo hi : ℚ) (xs : List ℚ) : List ℚ :=
  clampHigh hi (clampLow lo xs)

/-- The workspace bounding box `BOX_LIMIT`: per-axis lower and upper bounds,
`[[x_min, x_max], [y_min, y_max], [z_min, z_max]]`. -/
structure BoxLimit where
  x_min : ℚ
  x_max : ℚ
  y_min : ℚ
  y_max : ℚ
  z_min : ℚ
  z_max : ℚ
  deriving Repr

/-- `constraint_trajectory_to_box(self)`: clamps the three discretized
coordinate lists to `BOX_LIMIT`, axis by axis. -/
def constraint_trajectory_to_box (b : BoxLimit) (xs ys zs : List ℚ) :
    List ℚ × List ℚ × List ℚ :=
  (clampAxis b.x_min b.x_max xs, clampAxis b.y_min b.y_max ys,
    clampAxis b.z_min b.z_max zs)

/-- Model of `np.linspace(a, b, num, endpoint=True)` with exact arithmetic:
`num` evenly spaced samples from `a` to `b`, both ends included when
`num ≥ 2`; numpy returns `[a]` for `num = 1` and the empty array for
`num = 0` (the source passes a float sample count, which numpy truncates
toward zero exactly as `Int.toNat ∘ Int.floor` does for the nonnegative
counts arising here). -/
def linspace (a b : ℚ) (num : ℕ) : List ℚ :=
  if num = 0 then []
  else if num = 1 then [a]
  else (List.range num).map (fun (i : ℕ) => a + (b - a) * (i : ℚ) / ((num : ℚ) - 1))

/-- Python `self.x_discretized[-1]` on a nonempty list (the engine starts
with `EXTRA_POINTS_START` copies of the origin, so the path is never
empty); `0` is a dummy default. -/
def lastD (xs : List ℚ) : ℚ :=
  xs.getLast?.getD 0

/-- The `'hover'` branch of `discretise_trajectory`:
`steps = int(parameters[1] * self.FREQUENCY)`; `x = x1 * np.ones(steps)`
(same for y, z), then `self.x_discretized.extend(x[1:])`.  The duration is
nonnegative in any meaningful run (`np.ones` of a negative count raises),
matching `Int.toNat ∘ Int.floor`. -/
def discretise_hover (cfg : Config) (xs ys zs : List ℚ) (duration : ℚ) :
    List ℚ × List ℚ × List ℚ :=
  (xs ++ (List.replicate ((⌊duration * (cfg.FREQUENCY : ℚ)⌋).toNat) (lastD xs)).drop 1,
   ys ++ (List.replicate ((⌊duration * (cfg.FREQUENCY : ℚ)⌋).toNat) (lastD ys)).drop 1,
   zs ++ (List.replicate ((⌊duration * (cfg.FREQUENCY : ℚ)⌋).toNat) (lastD zs)).drop 1)

/-- The `'takeoff'` branch of `discretise_trajectory`:
`steps = int(abs(parameters[1] - z1) / delta_l)`; x and y stay constant,
z is `np.linspace(z1, parameters[1], steps, endpoint=True)`; then the
three lists are extended with `x[1:]`, `y[1:]`, `z[1:]`. -/
def discretise_takeoff (cfg : Config) (xs ys zs : List ℚ) (ztarget : ℚ) :
    List ℚ × List ℚ × List ℚ :=
  (xs ++ (List.replicate ((⌊|ztarget - lastD zs| / cfg.delta_l⌋).toNat) (lastD xs)).drop 1,
   ys ++ (List.replicate ((⌊|ztarget - lastD zs| / cfg.delta_l⌋).toNat) (lastD ys)).drop 1,
   zs ++ (linspace (lastD zs) ztarget ((⌊|ztarget - lastD zs| / cfg.delta_l⌋).toNat)).drop 1)

/-- Structurally recursive integer square root (`Nat.sqrt` is defined by
well-founded recursion, which the kernel will not evaluate): the largest
`j ≤ k` with `j ^ 2 ≤ n`. -/
def isqrtAux (n : ℕ) : ℕ → ℕ
  | 0 => 0
  | k + 1 => if (k + 1) ^ 2 ≤ n then k + 1 else isqrtAux n k

/-- Integer square root, equal to `Nat.sqrt` (see `isqrt_eq_sqrt`). -/
def isqrt (n : ℕ) : ℕ :=
  isqrtAux n n

/-- The exact value of `int(Real.sqrt q / c)` for `q ≥ 0 < c` without
leaving `ℚ`; used for `int(np.linalg.norm(vt_1) / (delta_l * self.PUBLISH_RATE))`
with `q` the squared norm (see `floorSqrtDiv_eq_floor`). -/
def floorSqrtDiv (q c : ℚ) : ℕ :=
  isqrt ((⌊q / c ^ 2⌋).toNat)

/-- The exact value of `int(norm(target, current) / delta_l)` for the
`'vector'` branch, computed from the squared distance via `floorSqrtDiv`
(the theorem `floorSqrtDiv_eq_floor` proves this equals
`Int.floor (Real.sqrt q / c)`), so the float expression is embedded
without leaving `ℚ`. -/
def vectorSteps (cfg : Config) (x1 y1 z1 tx ty tz : ℚ) : ℕ :=
  floorSqrtDiv ((tx - x1) ^ 2 + (ty - y1) ^ 2 + (tz - z1) ^ 2) cfg.delta_l

/-- The `'vector'` branch of `discretise_trajectory`:
`steps = self.norm(parameters[1], [x1, y1, z1]) / delta_l` (truncated to an
int by `np.linspace`), then per-axis `np.linspace` from the current end to
the target, `endpoint=True`, and extension with `x[1:]`, `y[1:]`, `z[1:]`. -/
def discretise_vector (cfg : Config) (xs ys zs : List ℚ) (tx ty tz : ℚ) :
    List ℚ × List ℚ × List ℚ :=
  (xs ++ (linspace (lastD xs) tx (vectorSteps cfg (lastD xs) (lastD ys) (lastD zs) tx ty tz)).drop 1,
   ys ++ (linspace (lastD ys) ty (vectorSteps cfg (lastD xs) (lastD ys) (lastD zs) tx ty tz)).drop 1,
   zs ++ (linspace (lastD zs) tz (vectorSteps cfg (lastD xs) (lastD ys) (lastD zs) tx ty tz)).drop 1)

/-- The padding at the top of `generate_states`: the path is extended with
`EXTRA_POINTS_END` copies of its last element, one axis at a time. -/
def padEnd (cfg : Config) (xs : List ℚ) : List ℚ :=
  xs ++ List.replicate cfg.EXTRA_POINTS_END (lastD xs)

/-- The velocity list built by the loop of `generate_states`: it starts as
`[.0]` and iteration `s` (over `enumerate(self.x_discretized[1:])`)
appends `(self.x_discretized[s+1] - self.x_discretized[s]) * self.FREQUENCY`. -/
def velSeq (f : ℕ) (xs : List ℚ) : List ℚ :=
  0 :: (List.range (xs.length - 1)).map
    (fun s => (xs.getD (s + 1) 0 - xs.getD s 0) * (f : ℚ))

/-- The acceleration list built by the same loop: it starts as `[.0]` and
iteration `s` appends `(v[-1] - v[-2]) * self.FREQUENCY`, i.e.
`(v[s+1] - v[s]) * f` for the velocity list `v` being built alongside
(which has the same length as the position list). -/
def accSeq (f : ℕ) (vs : List ℚ) : List ℚ :=
  0 :: (List.range (vs.length - 1)).map
    (fun s => (vs.getD (s + 1) 0 - vs.getD s 0) * (f : ℚ))

/-- The velocity output of `generate_states` on one axis: the axis list is
first padded with `EXTRA_POINTS_END` held samples, then differentiated.
The yaw output is independent of this computation and is embedded
separately over `ℝ`. -/
def generate_states_v (cfg : Config) (xs : List ℚ) : List ℚ :=
  velSeq cfg.FREQUENCY (padEnd cfg xs)

/-- The acceleration output of `generate_states` on one axis. -/
def generate_states_a (cfg : Config) (xs : List ℚ) : List ℚ :=
  accSeq cfg.FREQUENCY (generate_states_v cfg xs)

/-- The cursor trace of the publishing loop `start(self)` from cursor `s`:
with `inc = 1` and `window_points = self.WINDOW_FRAME * inc` (the integer
window size set in `__main__`), the loop runs while
`s < len(x) - window_points`, each tick builds
`int(min(window_points, len(x)-s)/inc)` points and then advances
`s = s + inc`.  Each tick is recorded as (cursor, point count); the
external shutdown test is an environment event outside the model. -/
def pubTicks (len w : ℕ) (s : ℕ) : List (ℕ × ℕ) :=
  if s < len - w then
    (s, min w (len - s) / 1) :: pubTicks len w (s + 1)
  else []
termination_by len - w - s
decreasing_by simp_wf; omega

/-- The full tick trace of `start(self)`, beginning at `s = 0`. -/
def startTrace (len w : ℕ) : List (ℕ × ℕ) :=
  pubTicks len w 0

/-- One step of the loop in `generate_states_filtered`, on a single axis
(the three axes do not interact; the z axis uses `MAX_LINEAR_ACC_Z` and
`MAX_LINEAR_SPEED_Z`).  The state is the triple of lists
(x_filtered, v_filtered, a_filtered); the step consumes
`self.vx_discretized[s+1]` and appends, in source order, the saturated
acceleration, then the saturated velocity, then the integrated position. -/
def gsfStep (f : ℕ) (maxAcc maxSpeed : ℚ)
    (st : List ℚ × List ℚ × List ℚ) (v : ℚ) : List ℚ × List ℚ × List ℚ :=
  let a1 := saturate ((v - lastD st.2.1) * (f : ℚ)) maxAcc
  let v1 := saturate (lastD st.2.1 + a1 / (f : ℚ)) maxSpeed
  let x1 := lastD st.1 + v1 / (f : ℚ)
  (st.1 ++ [x1], st.2.1 ++ [v1], st.2.2 ++ [a1])

/-- `generate_states_filtered(self)` on one axis: the filtered lists start
as `[self.x_discretized[0]]`, `[.0]`, `[.0]` and the loop folds `gsfStep`
over `self.vx_discretized[1:]`. -/
def generate_states_filtered_axis (f : ℕ) (maxAcc maxSpeed : ℚ)
    (x0 : ℚ) (vraw : List ℚ) : List ℚ × List ℚ × List ℚ :=
  (vraw.drop 1).foldl (gsfStep f maxAcc maxSpeed) ([x0], [0], [0])

/-- One step of the loop in `generate_states_sg_filtered`, on a single
axis.  The state is (x_filtered, the mutated prefix of vx_filtered,
a_filtered): iteration `s` reads `self.vx_filtered[s+1]` (still the raw
Savitzky-Golay output, the consumed element `v`) and
`self.vx_filtered[s]` (already overwritten, the last element of the
carried prefix), appends the saturated acceleration, overwrites
`vx_filtered[s+1]` with the re-integrated velocity, and appends the
integrated position. -/
def gssgStep (f : ℕ) (maxAcc : ℚ)
    (st : List ℚ × List ℚ × List ℚ) (v : ℚ) : List ℚ × List ℚ × List ℚ :=
  let a1 := saturate ((v - lastD st.2.1) * (f : ℚ)) maxAcc
  let v1 := lastD st.2.1 + a1 / (f : ℚ)
  let x1 := lastD st.1 + v1 / (f : ℚ)
  (st.1 ++ [x1], st.2.1 ++ [v1], st.2.2 ++ [a1])

/-- `generate_states_sg_filtered(self, ...)` on one axis, after the
`scipy.signal.savgol_filter` call: the filter is external library code, so
its output `vraw` is taken as an arbitrary input sequence; the claims
proved below hold for every such sequence.  `x_filtered` starts as
`[self.x_discretized[0]]`, `vx_filtered` as the filter output (whose first
element is never overwritten), `a` as `[.0]`. -/
def generate_states_sg_filtered_axis (f : ℕ) (maxAcc : ℚ)
    (x0 : ℚ) (vraw : List ℚ) : List ℚ × List ℚ × List ℚ :=
  (vraw.drop 1).foldl (gssgStep f maxAcc) ([x0], [vraw.getD 0 0], [0])

/-- Python `np.sign` on a scalar. -/
def np_sign (d : ℚ) : ℚ :=
  if d < 0 then -1 else if d = 0 then 0 else 1

/-- One component of
`np.sign(delta_v) * np.minimum(np.abs(delta_v), acc_max / self.PUBLISH_RATE)`
in `discretise_to_smooth_trajectory`. -/
def satComp (d m : ℚ) : ℚ :=
  np_sign d * min |d| m

/-- Squared euclidean norm of a 3-vector, used to embed the
`np.linalg.norm(...) < .3` test as the equivalent decidable
`sumsq < .09`. -/
def sumsq3 (a b c : ℚ) : ℚ :=
  a ^ 2 + b ^ 2 + c ^ 2

/-- The resampling while-loop of `discretise_to_smooth_trajectory(self)`.
Arguments after the six input lists: fuel (the loop always advances the
raw cursor, so `xs.length + 1` iterations suffice), the raw cursor `s`,
the current `s_inc`, the rate-limited velocity `vt_0` (three components),
and the accumulated (x_filtered, y_filtered, z_filtered).  Each pass
mirrors the source: pick `vdes` at `s + s_inc` (or the last raw velocity
past the end), saturate `delta_v` per axis by `acc_max / PUBLISH_RATE`,
step `vt` (with `cdot` frozen at `1.0`; the loop assigns the unused name
`c_dot`), choose the next `s_inc` from the norm tests, advance `s`, append
the raw sample at the new cursor, and stop on `s_inc == 0` or
`s >= s_max`.  Raw indexing is total (`getD`), matching the source on
every run that stays in range, as the runs below do. -/
def smoothLoop (cfg : Config) (xs ys zs vxs vys vzs : List ℚ) :
    ℕ → ℕ → ℕ → ℚ × ℚ × ℚ → List ℚ × List ℚ × List ℚ →
      List ℚ × List ℚ × List ℚ
  | 0, _, _, _, acc => acc
  | fuel + 1, s, s_inc, vt, acc =>
    let s_max := xs.length - cfg.FREQUENCY / cfg.PUBLISH_RATE
    if s < s_max then
      let vdx := if s + s_inc < s_max then vxs.getD (s + s_inc) 0 else lastD vxs
      let vdy := if s + s_inc < s_max then vys.getD (s + s_inc) 0 else lastD vys
      let vdz := if s + s_inc < s_max then vzs.getD (s + s_inc) 0 else lastD vzs
      let vtx1 := vt.1 + satComp (vdx - vt.1) (cfg.MAX_LINEAR_ACC_XY / cfg.PUBLISH_RATE)
      let vty1 := vt.2.1 + satComp (vdy - vt.2.1) (cfg.MAX_LINEAR_ACC_XY / cfg.PUBLISH_RATE)
      let vtz1 := vt.2.2 + satComp (vdz - vt.2.2) (cfg.MAX_LINEAR_ACC_Z / cfg.PUBLISH_RATE)
      let s_inc1 :=
        if sumsq3 vdx vdy vdz < 9 / 100 then cfg.FREQUENCY / cfg.PUBLISH_RATE
        else max (floorSqrtDiv (sumsq3 vtx1 vty1 vtz1) (cfg.delta_l * cfg.PUBLISH_RATE)) 1
      let s1 := s + s_inc1
      let acc1 := (acc.1 ++ [xs.getD s1 0], acc.2.1 ++ [ys.getD s1 0],
        acc.2.2 ++ [zs.getD s1 0])
      if s_inc1 = 0 then acc1
      else smoothLoop cfg xs ys zs vxs vys vzs fuel s1 s_inc1 (vtx1, vty1, vtz1) acc1
    else acc

/-- The filtered position lists produced by the first half of
`discretise_to_smooth_trajectory(self)`: the accumulators start as the
singleton heads of the raw lists, `s = 0`, `s_inc = 10` (a literal in the
source), `vt_0 = (0, 0, 0)`. -/
def discretise_to_smooth_positions (cfg : Config)
    (xs ys zs vxs vys vzs : List ℚ) : List ℚ × List ℚ × List ℚ :=
  smoothLoop cfg xs ys zs vxs vys vzs (xs.length + 1) 0 10 (0, 0, 0)
    ([xs.getD 0 0], [ys.getD 0 0], [zs.getD 0 0])

/-- The second half of `discretise_to_smooth_trajectory(self)` on one
axis: the filtered velocity and acceleration lists are rebuilt from the
resampled positions by the same append loop as `generate_states`, with
`self.PUBLISH_RATE` in place of `self.FREQUENCY`, and with no saturation
applied to either list. -/
def discretise_to_smooth_a (cfg : Config) (xf : List ℚ) : List ℚ :=
  accSeq cfg.PUBLISH_RATE (velSeq cfg.PUBLISH_RATE xf)

/-- The configuration of `__main__`: requested speed 3, publish rate 10,
frequency 100, extra points 100/100, speed limits 10/12, acceleration
limits 1.5/2. -/
def cfgMain : Config :=
  ⟨3, 10, 100, 100, 100, 10, 12, 3/2, 2⟩

/-- A configuration for the C2 counterexample: frequency 10 and end
padding 1, so the lists stay small. -/
def cfgC2 : Config :=
  ⟨3, 10, 10, 3, 1, 10, 12, 3/2, 2⟩

/-- A configuration for the C10 witness: speed 3 and frequency 6, so
`delta_l = 1/2` and the unit vector from the origin generates
`isqrt 4 = 2` samples. -/
def cfgC10 : Config :=
  ⟨3, 10, 6, 3, 3, 10, 12, 3/2, 2⟩

/-- The C1 counterexample run: configuration with requested speed 3,
publish rate 5, frequency 10 (so `ratio = 2`), `__main__` acceleration
limits 1.5 and 2, and the directive list `['takeoff', 3]`.  The pipeline
is the one `__main__` executes: the seeded path of
`EXTRA_POINTS_START = 100` origin samples is extended by the takeoff
segment, `generate_states` pads `EXTRA_POINTS_END = 100` held samples and
differentiates, and `discretise_to_smooth_trajectory` resamples. -/
def cexCfg : Config :=
  ⟨3, 5, 10, 100, 100, 10, 12, 3/2, 2⟩

/-- The seeded path: `EXTRA_POINTS_START = 100` origin samples. -/
def cexBase : List ℚ :=
  List.replicate 100 0

/-- The path after `discretise_trajectory(parameters=['takeoff', 3.])`. -/
def cexTakeoff : List ℚ × List ℚ × List ℚ :=
  discretise_takeoff cexCfg cexBase cexBase cexBase 3

/-- The x/y/z lists after the padding step of `generate_states`. -/
def cexXs : List ℚ := padEnd cexCfg cexTakeoff.1
def cexYs : List ℚ := padEnd cexCfg cexTakeoff.2.1
def cexZs : List ℚ := padEnd cexCfg cexTakeoff.2.2

/-- The filtered positions produced by `discretise_to_smooth_trajectory`. -/
def cexSmoothed : List ℚ × List ℚ × List ℚ :=
  discretise_to_smooth_positions cexCfg cexXs cexYs cexZs
    (velSeq cexCfg.FREQUENCY cexXs) (velSeq cexCfg.FREQUENCY cexYs)
    (velSeq cexCfg.FREQUENCY cexZs)

/-- The z-axis filtered acceleration list of the resampling smoother. -/
def cexAz : List ℚ :=
  discretise_to_smooth_a cexCfg cexSmoothed.2.2

/-- `norm(self, p1, p2)`:
`math.sqrt((p2[0]-p1[0])**2 + (p2[1]-p1[1])**2 + (p2[2]-p1[2])**2)`.
Real-valued because of the square root. -/
noncomputable def norm (p1 p2 : ℝ × ℝ × ℝ) : ℝ :=
  Real.sqrt ((p2.1 - p1.1) ^ 2 + (p2.2.1 - p1.2.1) ^ 2 + (p2.2.2 - p1.2.2) ^ 2)

/-- `norm2(self, p1, p2=[.0, .0])`: every call site in the source passes a
single argument, so the default `p2` is inlined. -/
noncomputable def norm2 (p1 : ℝ × ℝ) : ℝ :=
  Real.sqrt ((0 - p1.1) ^ 2 + (0 - p1.2) ^ 2)

/-- Python `xs[-1]` over the real-valued lists. -/
def lastDR (xs : List ℝ) : ℝ :=
  xs.getLast?.getD 0

/-- The x coordinate of sample `s` in the `'circle'` branch:
`(cos_a*cos_b(s) - sin_a*sin_b(s))*radius + center[0]` with
`cos_a = (x1 - center[0])/radius`, `sin_a = (y1 - center[1])/radius`,
`cos_b(s) = cos((2*pi/steps)*s)`, `sin_b(s) = sin((2*pi/steps)*s)`. -/
noncomputable def circleX (x1 y1 : ℝ) (c : ℝ × ℝ × ℝ) (radius : ℝ) (steps s : ℕ) : ℝ :=
  ((x1 - c.1) / radius * Real.cos (2 * Real.pi / (steps : ℝ) * (s : ℝ))
    - (y1 - c.2.1) / radius * Real.sin (2 * Real.pi / (steps : ℝ) * (s : ℝ))) * radius + c.1

/-- The y coordinate of sample `s` in the `'circle'` branch:
`(sin_a*cos_b(s) + cos_a*sin_b(s))*radius + center[1]`. -/
noncomputable def circleY (x1 y1 : ℝ) (c : ℝ × ℝ × ℝ) (radius : ℝ) (steps s : ℕ) : ℝ :=
  ((y1 - c.2.1) / radius * Real.cos (2 * Real.pi / (steps : ℝ) * (s : ℝ))
    + (x1 - c.1) / radius * Real.sin (2 * Real.pi / (steps : ℝ) * (s : ℝ))) * radius + c.2.1

open Classical in
/-- The `'circle'` branch of `discretise_trajectory`:
`radius = norm(center, [x1, y1, z1])`, `steps = int(2*pi*radius/delta_l)`,
samples for `s in range(0, steps+1)`, z held at `center[2]`, and extension
with `x[1:]`, `y[1:]`, `z[1:]`.  `none` embeds the two Python
`ZeroDivisionError` cases: `radius = 0` (the division
`(x1 - center[0]) / radius`) and `steps = 0` (the division `2*pi/steps`
inside `cos_b`, evaluated at the first sample). -/
noncomputable def discretise_circle (cfg : Config) (xs ys zs : List ℝ)
    (c : ℝ × ℝ × ℝ) : Option (List ℝ × List ℝ × List ℝ) :=
  if norm c (lastDR xs, lastDR ys, lastDR zs) = 0 then none
  else if (⌊2 * Real.pi * norm c (lastDR xs, lastDR ys, lastDR zs) /
      ((cfg.delta_l : ℚ) : ℝ)⌋).toNat = 0 then none
  else some
    (xs ++ ((List.range ((⌊2 * Real.pi * norm c (lastDR xs, lastDR ys, lastDR zs) /
        ((cfg.delta_l : ℚ) : ℝ)⌋).toNat + 1)).map
      (circleX (lastDR xs) (lastDR ys) c (norm c (lastDR xs, lastDR ys, lastDR zs))
        ((⌊2 * Real.pi * norm c (lastDR xs, lastDR ys, lastDR zs) /
          ((cfg.delta_l : ℚ) : ℝ)⌋).toNat))).drop 1,
     ys ++ ((List.range ((⌊2 * Real.pi * norm c (lastDR xs, lastDR ys, lastDR zs) /
        ((cfg.delta_l : ℚ) : ℝ)⌋).toNat + 1)).map
      (circleY (lastDR xs) (lastDR ys) c (norm c (lastDR xs, lastDR ys, lastDR zs))
        ((⌊2 * Real.pi * norm c (lastDR xs, lastDR ys, lastDR zs) /
          ((cfg.delta_l : ℚ) : ℝ)⌋).toNat))).drop 1,
     zs ++ ((List.range ((⌊2 * Real.pi * norm c (lastDR xs, lastDR ys, lastDR zs) /
        ((cfg.delta_l : ℚ) : ℝ)⌋).toNat + 1)).map (fun _ => c.2.2)).drop 1)

/-- The tag of `self.YAW_HEADING[0]`. -/
inductive YawKind where
  | auto
  | center
  | axes

/-- `self.YAW_HEADING`: the policy tag and the auxiliary vector
`YAW_HEADING[1]`. -/
structure YawHeading where
  kind : YawKind
  vec : ℝ × ℝ

/-- The unnormalized heading chosen by the `if/elif/else` on
`self.YAW_HEADING[0]` in `generate_states` and `generate_yaw_filtered`:
`YAW_HEADING[1] - p1` for `'center'`, `YAW_HEADING[1]` for `'axes'`,
`p2 - p1` otherwise (`'auto'`). -/
def rawHeading (yh : YawHeading) (p1 p2 : ℝ × ℝ) : ℝ × ℝ :=
  match yh.kind with
  | YawKind.center => (yh.vec.1 - p1.1, yh.vec.2 - p1.2)
  | YawKind.axes => yh.vec
  | YawKind.auto => (p2.1 - p1.1, p2.2 - p1.2)

open Classical in
/-- The guarded normalization shared verbatim by `generate_states` and
`generate_yaw_filtered`:
`heading = (heading / self.norm2(heading)) if self.norm2(heading) != 0 else prevHeading`. -/
noncomputable def guardHeading (hd prev : ℝ × ℝ) : ℝ × ℝ :=
  if norm2 hd ≠ 0 then (hd.1 / norm2 hd, hd.2 / norm2 hd) else prev

/-- The loop of heading updates over consecutive position pairs, carrying
`prevHeading` exactly as the source loop does. -/
noncomputable def headingTraceAux (yh : YawHeading) : ℝ × ℝ → List (ℝ × ℝ) → List (ℝ × ℝ)
  | _, [] => []
  | _, [_] => []
  | prev, p1 :: p2 :: rest =>
    guardHeading (rawHeading yh p1 p2) prev ::
      headingTraceAux yh (guardHeading (rawHeading yh p1 p2) prev) (p2 :: rest)

/-- The sequence of heading vectors computed by the loop of
`generate_states` over the (padded) xy position sequence;
`prevHeading = np.array([.0, .0])` initially.  (`generate_yaw_filtered`
runs the same update on the filtered positions; the yaw angle recorded per
sample is `atan2` of these vectors and does not feed back into them.) -/
noncomputable def headingTrace (yh : YawHeading) (ps : List (ℝ × ℝ)) : List (ℝ × ℝ) :=
  headingTraceAux yh (0, 0) ps

/-- The magnitude of `saturate x y` is `min |x| |y|`; helper shared by
several claims. -/
theorem abs_saturate (x y : ℚ) : |saturate x y| = min |x| |y| := by
  unfold saturate copysign minAbs
  rcases lt_or_le |y| |x| with h | h
  · rw [if_pos h]
    have hmin : min |x| |y| = |y| := min_eq_right h.le
    split_ifs <;> simp [abs_abs, hmin]
  · rw [if_neg (not_lt.mpr h)]
    have hmin : min |x| |y| = |x| := min_eq_left h
    split_ifs <;> simp [abs_abs, hmin]

/-- The saturation magnitude never exceeds the magnitude of the bound
argument; helper shared by the filter invariants. -/
theorem abs_saturate_le (x y : ℚ) : |saturate x y| ≤ |y| := by
  rw [abs_saturate]; exact min_le_right _ _

/-- Saturation is the identity when the input is within the bound. -/
theorem saturate_eq_self (x y : ℚ) (h : |x| ≤ |y|) : saturate x y = x := by
  unfold saturate copysign minAbs
  rw [if_neg (not_lt.mpr h)]
  rcases lt_or_le x 0 with hx | hx
  · rw [if_pos hx, abs_of_neg hx, neg_neg]
  · rw [if_neg (not_lt.mpr hx), abs_of_nonneg hx]

/-- Saturate decomposes as sign of the first argument times the clamped
magnitude. -/
theorem saturate_eq_sign_mul (x y : ℚ) :
    saturate x y = (if x < 0 then -1 else 1) * min |x| |y| := by
  unfold saturate copysign minAbs
  rcases lt_or_le |y| |x| with h | h
  · rw [if_pos h]
    have hmin : min |x| |y| = |y| := min_eq_right h.le
    split_ifs <;> simp [hmin]
  · rw [if_neg (not_lt.mpr h)]
    have hmin : min |x| |y| = |x| := min_eq_left h
    split_ifs <;> simp [hmin]

theorem clampAxis_bounds {lo hi : ℚ} (h : lo ≤ hi) (xs : List ℚ) :
    ∀ v ∈ clampAxis lo hi xs, lo ≤ v ∧ v ≤ hi := by
  intro v hv
  unfold clampAxis clampHigh clampLow at hv
  rw [List.map_map, List.mem_map] at hv
  obtain ⟨x, -, rfl⟩ := hv
  simp only [Function.comp_apply]
  split_ifs <;> exact ⟨by linarith, by linarith⟩

theorem clampAxis_getD_of_inside {lo hi : ℚ} (xs : List ℚ) (i : ℕ)
    (hlen : i < xs.length) (h1 : lo ≤ xs.getD i 0) (h2 : xs.getD i 0 ≤ hi) :
    (clampAxis lo hi xs).getD i 0 = xs.getD i 0 := by
  have hx : xs.getD i 0 = xs[i] := by
    rw [List.getD_eq_getElem?_getD, List.getElem?_eq_getElem hlen]; rfl
  unfold clampAxis clampHigh clampLow
  rw [List.map_map, List.getD_eq_getElem?_getD, List.getElem?_map,
    List.getElem?_eq_getElem hlen]
  simp only [Option.map_some', Option.getD_some, Function.comp_apply]
  rw [hx] at h1 h2 ⊢
  split_ifs <;> linarith

theorem clampAxis_idem (lo hi : ℚ) (xs : List ℚ) :
    clampAxis lo hi (clampAxis lo hi xs) = clampAxis lo hi xs := by
  unfold clampAxis clampHigh clampLow
  simp only [List.map_map]
  apply List.map_congr_left
  intro x _
  simp only [Function.comp_apply]
  split_ifs <;> rfl

theorem isqrtAux_eq (n : ℕ) : ∀ k, Nat.sqrt n ≤ k → isqrtAux n k = Nat.sqrt n := by
  intro k
  induction k with
  | zero => intro h; unfold isqrtAux; omega
  | succ k ih =>
    intro h
    unfold isqrtAux
    by_cases hle : (k + 1) ^ 2 ≤ n
    · rw [if_pos hle]
      have h1 : k + 1 ≤ Nat.sqrt n := Nat.le_sqrt'.mpr hle
      omega
    · rw [if_neg hle]
      apply ih
      by_cases hk : Nat.sqrt n = k + 1
      · exact absurd (hk ▸ Nat.sqrt_le' n) hle
      · omega

theorem isqrt_eq_sqrt (n : ℕ) : isqrt n = Nat.sqrt n :=
  isqrtAux_eq n n (Nat.sqrt_le_self n)

theorem pubTicks_eq_range' (len w : ℕ) :
    ∀ n s, len - w - s = n →
      pubTicks len w s = (List.range' s n).map (fun t => (t, min w (len - t) / 1)) := by
  intro n
  induction n with
  | zero =>
    intro s h
    rw [pubTicks, if_neg (by omega)]
    simp
  | succ n ih =>
    intro s h
    rw [pubTicks, if_pos (by omega), List.range'_succ, List.map_cons,
      ih (s + 1) (by omega)]

/-- Generic fold invariant, used for the saturation claims. -/
theorem foldl_inv {α β : Type} (P : α → Prop) (f : α → β → α)
    (hstep : ∀ st b, P st → P (f st b)) :
    ∀ (l : List β) (st : α), P st → P (l.foldl f st) := by
  intro l
  induction l with
  | nil => intro st h; exact h
  | cons b t ih => intro st h; exact ih _ (hstep st b h)

theorem replicate_drop_one {α : Type} (n : ℕ) (a : α) :
    (List.replicate n a).drop 1 = List.replicate (n - 1) a := by
  cases n <;> simp

theorem diffSeq_getD (f : ℕ) (xs : List ℚ) (i : ℕ) (h1 : 1 ≤ i) (h2 : i < xs.length) :
    (0 :: (List.range (xs.length - 1)).map
        (fun s => (xs.getD (s + 1) 0 - xs.getD s 0) * (f : ℚ))).getD i 0 =
      (xs.getD i 0 - xs.getD (i - 1) 0) * (f : ℚ) := by
  obtain ⟨j, rfl⟩ : ∃ j, i = j + 1 := ⟨i - 1, by omega⟩
  rw [List.getD_cons_succ, List.getD_eq_getElem?_getD, List.getElem?_map,
    List.getElem?_range (by omega)]
  simp

theorem velSeq_length (f : ℕ) (xs : List ℚ) :
    (velSeq f xs).length = xs.length - 1 + 1 := by
  simp [velSeq]

theorem velSeq_getD (f : ℕ) (xs : List ℚ) (i : ℕ) (h1 : 1 ≤ i) (h2 : i < xs.length) :
    (velSeq f xs).getD i 0 = (xs.getD i 0 - xs.getD (i - 1) 0) * (f : ℚ) :=
  diffSeq_getD f xs i h1 h2

theorem accSeq_getD (f : ℕ) (vs : List ℚ) (i : ℕ) (h1 : 1 ≤ i) (h2 : i < vs.length) :
    (accSeq f vs).getD i 0 = (vs.getD i 0 - vs.getD (i - 1) 0) * (f : ℚ) :=
  diffSeq_getD f vs i h1 h2

theorem linspace_length (a b : ℚ) (n : ℕ) : (linspace a b n).length = n := by
  unfold linspace
  split_ifs with h1 h2
  · simp [h1]
  · simp [h2]
  · simp

theorem linspace_getD_zero (a b : ℚ) (n : ℕ) (h : 1 ≤ n) :
    (linspace a b n).getD 0 0 = a := by
  unfold linspace
  rw [if_neg (by omega)]
  by_cases h1 : n = 1
  · rw [if_pos h1]; rfl
  · rw [if_neg h1]
    obtain ⟨m, rfl⟩ : ∃ m, n = m + 1 := ⟨n - 1, by omega⟩
    rw [List.range_succ_eq_map, List.map_cons, List.getD_cons_zero]
    norm_num

theorem linspace_getLast (a b : ℚ) (n : ℕ) (h : 2 ≤ n) :
    (linspace a b n).getLast? = some b := by
  unfold linspace
  rw [if_neg (by omega), if_neg (by omega)]
  obtain ⟨m, rfl⟩ : ∃ m, n = m + 1 := ⟨n - 1, by omega⟩
  rw [List.range_succ, List.map_append, List.map_singleton, List.getLast?_concat]
  have hm : ((m : ℚ)) ≠ 0 := by
    have h1 : 1 ≤ m := by omega
    exact_mod_cast Nat.one_le_iff_ne_zero.mp h1
  have hv : a + (b - a) * (m : ℚ) / (((m + 1 : ℕ) : ℚ) - 1) = b := by
    push_cast
    rw [add_sub_cancel_right, mul_div_assoc, div_self hm, mul_one]
    ring
  rw [hv]

theorem getLast?_drop_one {α : Type} (l : List α) (h : 2 ≤ l.length) :
    (l.drop 1).getLast? = l.getLast? := by
  match l with
  | [] => simp at h
  | [a] => simp at h
  | a :: b :: u => rw [List.drop_one, List.tail_cons, List.getLast?_cons_cons]

theorem floor_sqrt_eq_nat_sqrt_floor (x : ℝ) (hx : 0 ≤ x) :
    ⌊Real.sqrt x⌋ = (Nat.sqrt ⌊x⌋₊ : ℤ) := by
  have h1 : ((Nat.sqrt ⌊x⌋₊ : ℕ) : ℝ) ≤ Real.sqrt x := by
    have hsq : (((Nat.sqrt ⌊x⌋₊) ^ 2 : ℕ) : ℝ) ≤ x :=
      le_trans (by exact_mod_cast Nat.sqrt_le' ⌊x⌋₊) (Nat.floor_le hx)
    calc ((Nat.sqrt ⌊x⌋₊ : ℕ) : ℝ)
        = Real.sqrt (((Nat.sqrt ⌊x⌋₊ : ℕ) : ℝ) ^ 2) :=
          (Real.sqrt_sq (Nat.cast_nonneg _)).symm
      _ ≤ Real.sqrt x := Real.sqrt_le_sqrt (by push_cast at hsq ⊢; exact hsq)
  have h2 : Real.sqrt x < ((Nat.sqrt ⌊x⌋₊ : ℕ) : ℝ) + 1 := by
    have hlt : x < (((Nat.sqrt ⌊x⌋₊ + 1 : ℕ) : ℝ)) ^ 2 := by
      have ha : x < ((⌊x⌋₊ : ℕ) : ℝ) + 1 := Nat.lt_floor_add_one x
      have hb : ((⌊x⌋₊ : ℕ)) + 1 ≤ (Nat.sqrt ⌊x⌋₊ + 1) ^ 2 := Nat.lt_succ_sqrt' ⌊x⌋₊
      calc x < ((⌊x⌋₊ : ℕ) : ℝ) + 1 := ha
        _ ≤ (((Nat.sqrt ⌊x⌋₊ + 1 : ℕ) : ℝ)) ^ 2 := by exact_mod_cast hb
    have hcast := Real.sqrt_lt_sqrt hx hlt
    rw [Real.sqrt_sq (by positivity)] at hcast
    push_cast at hcast
    exact hcast
  rw [Int.floor_eq_iff]
  constructor
  · exact_mod_cast h1
  · push_cast
    exact h2

/-- The identity behind `floorSqrtDiv` and `vectorSteps`: the embedded
rational computation equals the float expression
`int(math.sqrt(q) / c)` exactly. -/
theorem floorSqrtDiv_eq_floor (q c : ℚ) (hq : 0 ≤ q) (hc : 0 < c) :
    (floorSqrtDiv q c : ℤ) = ⌊Real.sqrt ((q : ℚ) : ℝ) / ((c : ℚ) : ℝ)⌋ := by
  have hq' : (0 : ℝ) ≤ ((q : ℚ) : ℝ) := by exact_mod_cast hq
  have hc' : (0 : ℝ) < ((c : ℚ) : ℝ) := by exact_mod_cast hc
  have hdiv : Real.sqrt ((q : ℚ) : ℝ) / ((c : ℚ) : ℝ) =
      Real.sqrt (((q / c ^ 2 : ℚ) : ℝ)) := by
    rw [show (((q / c ^ 2 : ℚ)) : ℝ) = ((q : ℚ) : ℝ) / ((c : ℚ) : ℝ) ^ 2 by
      push_cast; ring]
    rw [Real.sqrt_div hq', Real.sqrt_sq hc'.le]
  have hqc : (0 : ℝ) ≤ ((q / c ^ 2 : ℚ) : ℝ) := by
    have : (0 : ℚ) ≤ q / c ^ 2 := div_nonneg hq (by positivity)
    exact_mod_cast this
  rw [hdiv, floor_sqrt_eq_nat_sqrt_floor _ hqc]
  unfold floorSqrtDiv
  rw [isqrt_eq_sqrt]
  congr 1
  have hfc : ⌊((q / c ^ 2 : ℚ) : ℝ)⌋ = ⌊(q / c ^ 2 : ℚ)⌋ := Rat.floor_cast _
  rw [← hfc]
  exact congrArg Nat.sqrt (Int.floor_toNat (((q / c ^ 2 : ℚ) : ℝ)))

/-- Claim C8: `saturate(x, y)` returns the value whose sign is that of `x`
and whose magnitude is `min |x| |y|`; consequently `|saturate x y| ≤ |y|`
for every `x` and `y`, and `saturate x y = x` whenever `|x| ≤ |y|`.
(Python floats are embedded as exact rationals.) -/
theorem C8_saturate_sign_and_magnitude : ∀ x y : ℚ,
    saturate x y = (if x < 0 then -1 else 1) * min |x| |y| ∧
    |saturate x y| ≤ |y| ∧
    (|x| ≤ |y| → saturate x y = x) :=
  fun x y => ⟨saturate_eq_sign_mul x y, abs_saturate_le x y, saturate_eq_self x y⟩

unseal Rat.mul Rat.add Rat.sub Rat.inv in
/-- Witness for C8 at `x = 2`, `y = -3`: the in-bound case returns `x`. -/
theorem C8_saturate_sign_and_magnitude_witness :
    |(2 : ℚ)| ≤ |(-3 : ℚ)| ∧ saturate 2 (-3) = 2 :=
  ⟨by decide, (C8_saturate_sign_and_magnitude 2 (-3)).2.2 (by decide)⟩

/-- Claim C9: after `constraint_trajectory_to_box` runs, every coordinate
lies within its `BOX_LIMIT` interval; coordinates already inside the box
are unchanged; and the operation is idempotent. -/
theorem C9_box_clamp (b : BoxLimit)
    (hx : b.x_min ≤ b.x_max) (hy : b.y_min ≤ b.y_max) (hz : b.z_min ≤ b.z_max)
    (xs ys zs : List ℚ) :
    (∀ v ∈ (constraint_trajectory_to_box b xs ys zs).1, b.x_min ≤ v ∧ v ≤ b.x_max) ∧
    (∀ v ∈ (constraint_trajectory_to_box b xs ys zs).2.1, b.y_min ≤ v ∧ v ≤ b.y_max) ∧
    (∀ v ∈ (constraint_trajectory_to_box b xs ys zs).2.2, b.z_min ≤ v ∧ v ≤ b.z_max) ∧
    (∀ i, i < xs.length → b.x_min ≤ xs.getD i 0 → xs.getD i 0 ≤ b.x_max →
      (constraint_trajectory_to_box b xs ys zs).1.getD i 0 = xs.getD i 0) ∧
    (∀ i, i < ys.length → b.y_min ≤ ys.getD i 0 → ys.getD i 0 ≤ b.y_max →
      (constraint_trajectory_to_box b xs ys zs).2.1.getD i 0 = ys.getD i 0) ∧
    (∀ i, i < zs.length → b.z_min ≤ zs.getD i 0 → zs.getD i 0 ≤ b.z_max →
      (constraint_trajectory_to_box b xs ys zs).2.2.getD i 0 = zs.getD i 0) ∧
    constraint_trajectory_to_box b (constraint_trajectory_to_box b xs ys zs).1
        (constraint_trajectory_to_box b xs ys zs).2.1
        (constraint_trajectory_to_box b xs ys zs).2.2 =
      constraint_trajectory_to_box b xs ys zs := by
  refine ⟨clampAxis_bounds hx xs, clampAxis_bounds hy ys, clampAxis_bounds hz zs,
    ?_, ?_, ?_, ?_⟩
  · intro i hi hl hh; exact clampAxis_getD_of_inside xs i hi hl hh
  · intro i hi hl hh; exact clampAxis_getD_of_inside ys i hi hl hh
  · intro i hi hl hh; exact clampAxis_getD_of_inside zs i hi hl hh
  · unfold constraint_trajectory_to_box
    rw [clampAxis_idem, clampAxis_idem, clampAxis_idem]

unseal Rat.mul Rat.add Rat.sub Rat.inv in
/-- Witness for C9 with the `__main__` box `[[-4, 4], [-4, 4], [-0.01, 6]]`
and a small concrete path. -/
theorem C9_box_clamp_witness :
    (∀ v ∈ (constraint_trajectory_to_box ⟨-4, 4, -4, 4, -1/100, 6⟩ [5, 1] [0] [7]).1,
      (-4 : ℚ) ≤ v ∧ v ≤ 4) ∧
    (∀ v ∈ (constraint_trajectory_to_box ⟨-4, 4, -4, 4, -1/100, 6⟩ [5, 1] [0] [7]).2.1,
      (-4 : ℚ) ≤ v ∧ v ≤ 4) ∧
    (∀ v ∈ (constraint_trajectory_to_box ⟨-4, 4, -4, 4, -1/100, 6⟩ [5, 1] [0] [7]).2.2,
      (-1/100 : ℚ) ≤ v ∧ v ≤ 6) ∧
    (∀ i, i < ([5, 1] : List ℚ).length → (-4 : ℚ) ≤ ([5, 1] : List ℚ).getD i 0 →
      ([5, 1] : List ℚ).getD i 0 ≤ 4 →
      (constraint_trajectory_to_box ⟨-4, 4, -4, 4, -1/100, 6⟩ [5, 1] [0] [7]).1.getD i 0 =
        ([5, 1] : List ℚ).getD i 0) ∧
    (∀ i, i < ([0] : List ℚ).length → (-4 : ℚ) ≤ ([0] : List ℚ).getD i 0 →
      ([0] : List ℚ).getD i 0 ≤ 4 →
      (constraint_trajectory_to_box ⟨-4, 4, -4, 4, -1/100, 6⟩ [5, 1] [0] [7]).2.1.getD i 0 =
        ([0] : List ℚ).getD i 0) ∧
    (∀ i, i < ([7] : List ℚ).length → (-1/100 : ℚ) ≤ ([7] : List ℚ).getD i 0 →
      ([7] : List ℚ).getD i 0 ≤ 6 →
      (constraint_trajectory_to_box ⟨-4, 4, -4, 4, -1/100, 6⟩ [5, 1] [0] [7]).2.2.getD i 0 =
        ([7] : List ℚ).getD i 0) ∧
    constraint_trajectory_to_box ⟨-4, 4, -4, 4, -1/100, 6⟩
        (constraint_trajectory_to_box ⟨-4, 4, -4, 4, -1/100, 6⟩ [5, 1] [0] [7]).1
        (constraint_trajectory_to_box ⟨-4, 4, -4, 4, -1/100, 6⟩ [5, 1] [0] [7]).2.1
        (constraint_trajectory_to_box ⟨-4, 4, -4, 4, -1/100, 6⟩ [5, 1] [0] [7]).2.2 =
      constraint_trajectory_to_box ⟨-4, 4, -4, 4, -1/100, 6⟩ [5, 1] [0] [7] :=
  C9_box_clamp ⟨-4, 4, -4, 4, -1/100, 6⟩ (by decide) (by decide) (by decide) [5, 1] [0] [7]

/-- Claim C6: on every tick of the publishing loop `start()`, the number of
points placed in the message equals `min(configured window size, remaining
samples)` (hence never exceeds the window size), the cursor advances by
exactly one step per tick, and the loop runs exactly for the cursors below
`totalSamples - windowSize`. -/
theorem C6_publisher_window (len w : ℕ) :
    (startTrace len w).map Prod.fst = List.range (len - w) ∧
    ∀ p ∈ startTrace len w, p.2 = min w (len - p.1) ∧ p.2 ≤ w := by
  constructor
  · rw [startTrace, pubTicks_eq_range' len w (len - w) 0 (by omega), List.map_map,
      List.range_eq_range']
    exact List.map_id' _
  · intro p hp
    rw [startTrace, pubTicks_eq_range' len w (len - w) 0 (by omega), List.mem_map] at hp
    obtain ⟨t, ht, rfl⟩ := hp
    refine ⟨Nat.div_one _, ?_⟩
    rw [Nat.div_one]
    exact min_le_left _ _

/-- Claim C2 (amended): in `generate_states`, over the padded position
sequence, the first velocity and acceleration samples are zero, and every
later sample uses the backward differences
`velocity[i] = (position[i] - position[i-1]) * f` and
`acceleration[i] = (velocity[i] - velocity[i-1]) * f`.  (The claim's
forward formula `velocity[i] = (position[i+1] - position[i]) * f` is off
by one; see the counterexample.) -/
theorem C2_amended_backward_differences (cfg : Config) (xs : List ℚ) :
    (generate_states_v cfg xs).getD 0 0 = 0 ∧
    (generate_states_a cfg xs).getD 0 0 = 0 ∧
    ∀ i, 1 ≤ i → i < (padEnd cfg xs).length →
      (generate_states_v cfg xs).getD i 0 =
        ((padEnd cfg xs).getD i 0 - (padEnd cfg xs).getD (i - 1) 0) *
          (cfg.FREQUENCY : ℚ) ∧
      (generate_states_a cfg xs).getD i 0 =
        ((generate_states_v cfg xs).getD i 0 -
          (generate_states_v cfg xs).getD (i - 1) 0) * (cfg.FREQUENCY : ℚ) := by
  refine ⟨rfl, rfl, ?_⟩
  intro i h1 h2
  refine ⟨velSeq_getD _ _ i h1 h2, ?_⟩
  apply accSeq_getD _ _ i h1
  unfold generate_states_v
  rw [velSeq_length]
  omega

unseal Rat.mul Rat.add Rat.sub Rat.inv in
/-- Witness for the amended C2 at the concrete path `[0, 1, 3]`: the
velocity at index 2 is the backward difference `(3 - 1) * 10 = 20`. -/
theorem C2_amended_backward_differences_witness :
    1 ≤ 2 ∧ 2 < (padEnd cfgC2 [0, 1, 3]).length ∧
    (generate_states_v cfgC2 [0, 1, 3]).getD 2 0 =
      ((padEnd cfgC2 [0, 1, 3]).getD 2 0 - (padEnd cfgC2 [0, 1, 3]).getD 1 0) *
        (cfgC2.FREQUENCY : ℚ) :=
  ⟨by decide, by decide,
    ((C2_amended_backward_differences cfgC2 [0, 1, 3]).2.2 2 (by decide) (by decide)).1⟩

unseal Rat.mul Rat.add Rat.sub Rat.inv in
/-- Counterexample to C2 as stated: on the path `[0, 1, 3]` (padded to
`[0, 1, 3, 3]`) with frequency 10, the operands of the claimed forward
formula exist at index 1, yet `velocity[1] = 10` differs from
`(position[2] - position[1]) * 10 = 20`. -/
theorem C2_counterexample :
    1 + 1 < (padEnd cfgC2 [0, 1, 3]).length ∧
    (generate_states_v cfgC2 [0, 1, 3]).getD 1 0 ≠
      ((padEnd cfgC2 [0, 1, 3]).getD (1 + 1) 0 - (padEnd cfgC2 [0, 1, 3]).getD 1 0) *
        (cfgC2.FREQUENCY : ℚ) := by
  decide

/-- Claim C3 (amended): a hover directive of duration `d` appends
`int(d * FREQUENCY) - 1` samples (the slice `x[1:]` of
`int(d * FREQUENCY)` generated samples), each equal to the current
end-of-path position, so together with the already-present final sample
the position is held for `int(d * FREQUENCY)` consecutive samples. -/
theorem C3_amended_hover (cfg : Config) (xs ys zs : List ℚ) (d : ℚ) (hz : zs ≠ []) :
    (discretise_hover cfg xs ys zs d).1 =
      xs ++ List.replicate ((⌊d * (cfg.FREQUENCY : ℚ)⌋).toNat - 1) (lastD xs) ∧
    (discretise_hover cfg xs ys zs d).2.1 =
      ys ++ List.replicate ((⌊d * (cfg.FREQUENCY : ℚ)⌋).toNat - 1) (lastD ys) ∧
    (discretise_hover cfg xs ys zs d).2.2 =
      zs ++ List.replicate ((⌊d * (cfg.FREQUENCY : ℚ)⌋).toNat - 1) (lastD zs) ∧
    ((discretise_hover cfg xs ys zs d).2.2).length =
      zs.length + ((⌊d * (cfg.FREQUENCY : ℚ)⌋).toNat - 1) ∧
    (discretise_hover cfg xs ys zs d).2.2 =
      zs.dropLast ++
        List.replicate (1 + ((⌊d * (cfg.FREQUENCY : ℚ)⌋).toNat - 1)) (zs.getLast hz) := by
  have e1 : discretise_hover cfg xs ys zs d =
      (xs ++ List.replicate ((⌊d * (cfg.FREQUENCY : ℚ)⌋).toNat - 1) (lastD xs),
       ys ++ List.replicate ((⌊d * (cfg.FREQUENCY : ℚ)⌋).toNat - 1) (lastD ys),
       zs ++ List.replicate ((⌊d * (cfg.FREQUENCY : ℚ)⌋).toNat - 1) (lastD zs)) := by
    unfold discretise_hover
    rw [replicate_drop_one, replicate_drop_one, replicate_drop_one]
  have hlast : lastD zs = zs.getLast hz := by
    rw [lastD, List.getLast?_eq_getLast zs hz, Option.getD_some]
  refine ⟨by rw [e1], by rw [e1], by rw [e1], by rw [e1]; simp, ?_⟩
  rw [e1, hlast, Nat.add_comm 1, List.replicate_succ, ← List.singleton_append,
    ← List.append_assoc, List.dropLast_append_getLast hz]

unseal Rat.mul Rat.add Rat.sub Rat.inv in
/-- Witness for the amended C3: a 2 s hover at 100 Hz on the one-sample
path `[1]` appends 199 samples. -/
theorem C3_amended_hover_witness :
    (discretise_hover cfgMain [0] [0] [1] 2).2.2 =
      [1] ++ List.replicate ((⌊(2 : ℚ) * ((cfgMain.FREQUENCY : ℕ) : ℚ)⌋).toNat - 1) (lastD [1]) ∧
    ((discretise_hover cfgMain [0] [0] [1] 2).2.2).length =
      ([1] : List ℚ).length + ((⌊(2 : ℚ) * ((cfgMain.FREQUENCY : ℕ) : ℚ)⌋).toNat - 1) :=
  ⟨((C3_amended_hover cfgMain [0] [0] [1] 2 (by decide)).2.2.1),
    ((C3_amended_hover cfgMain [0] [0] [1] 2 (by decide)).2.2.2.1)⟩

set_option maxRecDepth 10000 in
unseal Rat.mul Rat.add Rat.sub Rat.inv in
/-- Counterexample to C3 as stated: the 2.0 s hover at 100 Hz appends 199
samples, not `2.0 * 100 = 200`. -/
theorem C3_counterexample :
    ((discretise_hover cfgMain [0] [0] [1] 2).2.2).length ≠ ([1] : List ℚ).length + 200 ∧
    ((discretise_hover cfgMain [0] [0] [1] 2).2.2).length = ([1] : List ℚ).length + 199 := by
  decide

/-- Claim C10: `discretise_trajectory` extends the path with `x[1:]`,
omitting the first generated sample of the segment, whose value for a
`'vector'` directive is exactly the pre-existing end-of-path point; and
whenever a `'vector'` directive generates at least two samples, the last
appended position equals the target exactly (`np.linspace` with
`endpoint=True`). -/
theorem C10_vector_skip_head_and_exact_endpoint (cfg : Config)
    (xs ys zs : List ℚ) (tx ty tz : ℚ) :
    (discretise_vector cfg xs ys zs tx ty tz).1 =
      xs ++ (linspace (lastD xs) tx
        (vectorSteps cfg (lastD xs) (lastD ys) (lastD zs) tx ty tz)).drop 1 ∧
    (discretise_vector cfg xs ys zs tx ty tz).2.1 =
      ys ++ (linspace (lastD ys) ty
        (vectorSteps cfg (lastD xs) (lastD ys) (lastD zs) tx ty tz)).drop 1 ∧
    (discretise_vector cfg xs ys zs tx ty tz).2.2 =
      zs ++ (linspace (lastD zs) tz
        (vectorSteps cfg (lastD xs) (lastD ys) (lastD zs) tx ty tz)).drop 1 ∧
    (1 ≤ vectorSteps cfg (lastD xs) (lastD ys) (lastD zs) tx ty tz →
      (linspace (lastD xs) tx
        (vectorSteps cfg (lastD xs) (lastD ys) (lastD zs) tx ty tz)).getD 0 0 = lastD xs ∧
      (linspace (lastD ys) ty
        (vectorSteps cfg (lastD xs) (lastD ys) (lastD zs) tx ty tz)).getD 0 0 = lastD ys ∧
      (linspace (lastD zs) tz
        (vectorSteps cfg (lastD xs) (lastD ys) (lastD zs) tx ty tz)).getD 0 0 = lastD zs) ∧
    (2 ≤ vectorSteps cfg (lastD xs) (lastD ys) (lastD zs) tx ty tz →
      ((discretise_vector cfg xs ys zs tx ty tz).1).getLast? = some tx ∧
      ((discretise_vector cfg xs ys zs tx ty tz).2.1).getLast? = some ty ∧
      ((discretise_vector cfg xs ys zs tx ty tz).2.2).getLast? = some tz) := by
  refine ⟨rfl, rfl, rfl, ?_, ?_⟩
  · intro h
    exact ⟨linspace_getD_zero _ _ _ h, linspace_getD_zero _ _ _ h,
      linspace_getD_zero _ _ _ h⟩
  · intro h
    have hlen : ∀ (a b : ℚ), 2 ≤ (linspace a b
        (vectorSteps cfg (lastD xs) (lastD ys) (lastD zs) tx ty tz)).length := by
      intro a b; rw [linspace_length]; exact h
    refine ⟨?_, ?_, ?_⟩
    · show (xs ++ (linspace (lastD xs) tx
        (vectorSteps cfg (lastD xs) (lastD ys) (lastD zs) tx ty tz)).drop 1).getLast? = some tx
      rw [List.getLast?_append, getLast?_drop_one _ (hlen _ _),
        linspace_getLast _ _ _ h]
      rfl
    · show (ys ++ (linspace (lastD ys) ty
        (vectorSteps cfg (lastD xs) (lastD ys) (lastD zs) tx ty tz)).drop 1).getLast? = some ty
      rw [List.getLast?_append, getLast?_drop_one _ (hlen _ _),
        linspace_getLast _ _ _ h]
      rfl
    · show (zs ++ (linspace (lastD zs) tz
        (vectorSteps cfg (lastD xs) (lastD ys) (lastD zs) tx ty tz)).drop 1).getLast? = some tz
      rw [List.getLast?_append, getLast?_drop_one _ (hlen _ _),
        linspace_getLast _ _ _ h]
      rfl

unseal Rat.mul Rat.add Rat.sub Rat.inv in
/-- Witness for C10: moving from the origin to `(1, 0, 0)` with
`delta_l = 1/2` generates two samples and ends exactly on the target. -/
theorem C10_vector_skip_head_and_exact_endpoint_witness :
    2 ≤ vectorSteps cfgC10 (lastD [0]) (lastD [0]) (lastD [0]) 1 0 0 ∧
    ((discretise_vector cfgC10 [0] [0] [0] 1 0 0).1).getLast? = some 1 ∧
    ((discretise_vector cfgC10 [0] [0] [0] 1 0 0).2.1).getLast? = some 0 ∧
    ((discretise_vector cfgC10 [0] [0] [0] 1 0 0).2.2).getLast? = some 0 :=
  ⟨by decide,
    (C10_vector_skip_head_and_exact_endpoint cfgC10 [0] [0] [0] 1 0 0).2.2.2.2 (by decide)⟩

/-- Claim C1 (amended, saturating strategies): on each axis, every sample
of the acceleration list produced by `generate_states_filtered` and by
`generate_states_sg_filtered` has magnitude at most the configured bound
(`MAX_LINEAR_ACC_XY` for x and y, `MAX_LINEAR_ACC_Z` for z), for every
input velocity sequence; the resampling smoother
`discretise_to_smooth_trajectory` does not guarantee this (see the
counterexample). -/
theorem C1_amended_saturated_strategies (f : ℕ) (maxAcc maxSpeed : ℚ)
    (hAcc : 0 ≤ maxAcc) (x0 : ℚ) (vraw : List ℚ) :
    (∀ a ∈ (generate_states_filtered_axis f maxAcc maxSpeed x0 vraw).2.2, |a| ≤ maxAcc) ∧
    (∀ a ∈ (generate_states_sg_filtered_axis f maxAcc x0 vraw).2.2, |a| ≤ maxAcc) := by
  have hsat : ∀ x : ℚ, |saturate x maxAcc| ≤ maxAcc := by
    intro x
    calc |saturate x maxAcc| ≤ |maxAcc| := abs_saturate_le _ _
      _ = maxAcc := abs_of_nonneg hAcc
  constructor
  · unfold generate_states_filtered_axis
    apply foldl_inv (fun st : List ℚ × List ℚ × List ℚ => ∀ a ∈ st.2.2, |a| ≤ maxAcc)
    · intro st b hP a ha
      simp only [gsfStep, List.mem_append, List.mem_singleton] at ha
      rcases ha with h | h
      · exact hP a h
      · subst h; exact hsat _
    · intro a ha
      rw [List.mem_singleton] at ha
      subst ha; simpa using hAcc
  · unfold generate_states_sg_filtered_axis
    apply foldl_inv (fun st : List ℚ × List ℚ × List ℚ => ∀ a ∈ st.2.2, |a| ≤ maxAcc)
    · intro st b hP a ha
      simp only [gssgStep, List.mem_append, List.mem_singleton] at ha
      rcases ha with h | h
      · exact hP a h
      · subst h; exact hsat _
    · intro a ha
      rw [List.mem_singleton] at ha
      subst ha; simpa using hAcc

unseal Rat.mul Rat.add Rat.sub Rat.inv in
/-- Witness for the amended C1 at the `__main__` z-axis limits and a
velocity step exceeding them. -/
theorem C1_amended_saturated_strategies_witness :
    (∀ a ∈ (generate_states_filtered_axis 100 2 12 0 [0, 5, -5]).2.2, |a| ≤ 2) ∧
    (∀ a ∈ (generate_states_sg_filtered_axis 100 2 0 [0, 5, -5]).2.2, |a| ≤ 2) :=
  C1_amended_saturated_strategies 100 2 12 (by decide) 0 [0, 5, -5]

set_option maxRecDepth 100000 in
unseal Rat.mul Rat.add Rat.sub Rat.inv in
/-- Counterexample to C1 as stated: after `discretise_to_smooth_trajectory`
on the takeoff run above, some sample of the filtered z acceleration
exceeds `MAX_LINEAR_ACC_Z = 2` (the list contains the value 25/3): the
resampling smoother never saturates the accelerations it re-derives. -/
theorem C1_counterexample :
    ∃ a ∈ cexAz, cexCfg.MAX_LINEAR_ACC_Z < |a| := by
  decide

unseal Rat.mul Rat.add Rat.sub Rat.inv in
/-- Claim C4 (amended): a `'vector'` directive whose target equals the
current end-of-path position generates zero samples and leaves the path
unchanged without raising; but a `'circle'` directive whose center equals
the current end-of-path position raises `ZeroDivisionError`
(`cos_a = (x1 - center[0]) / radius` with `radius = 0`), embedded as
`none` — it is not a no-op. -/
theorem C4_amended_degenerate :
    (∀ (cfg : Config) (xs ys zs : List ℚ),
      discretise_vector cfg xs ys zs (lastD xs) (lastD ys) (lastD zs) = (xs, ys, zs)) ∧
    ∀ (cfg : Config) (xs ys zs : List ℝ),
      discretise_circle cfg xs ys zs (lastDR xs, lastDR ys, lastDR zs) = none := by
  constructor
  · intro cfg xs ys zs
    have h0 : ((lastD xs - lastD xs) ^ 2 + (lastD ys - lastD ys) ^ 2 +
        (lastD zs - lastD zs) ^ 2 : ℚ) / cfg.delta_l ^ 2 = 0 := by
      rw [sub_self, sub_self, sub_self]
      norm_num
    have hsteps : vectorSteps cfg (lastD xs) (lastD ys) (lastD zs)
        (lastD xs) (lastD ys) (lastD zs) = 0 := by
      unfold vectorSteps floorSqrtDiv
      rw [h0]
      decide
    unfold discretise_vector
    rw [hsteps]
    show (xs ++ (linspace (lastD xs) (lastD xs) 0).drop 1,
      ys ++ (linspace (lastD ys) (lastD ys) 0).drop 1,
      zs ++ (linspace (lastD zs) (lastD zs) 0).drop 1) = (xs, ys, zs)
    simp [linspace]
  · intro cfg xs ys zs
    have hr : norm (lastDR xs, lastDR ys, lastDR zs) (lastDR xs, lastDR ys, lastDR zs) = 0 := by
      unfold norm
      simp [sub_self]
    unfold discretise_circle
    rw [if_pos hr]

/-- Counterexample to C4 as stated: with the path ending at `(0, 0, 1)`, a
`'circle'` directive centered at that same point has `radius = 0` and the
code raises (`none`), instead of producing a no-op segment. -/
theorem C4_counterexample :
    discretise_circle cfgMain [0] [0] [1] (0, 0, 1) = none := by
  have hr : norm ((0 : ℝ), (0 : ℝ), (1 : ℝ)) (lastDR [0], lastDR [0], lastDR [1]) = 0 := by
    unfold norm lastDR
    simp
  unfold discretise_circle
  rw [if_pos hr]

/-- Claim C7: for a `'circle'` directive with nonzero radius (and a
nonzero step count, as generated for any nonzero radius reachable by the
discretization), the first generated sample lies at the end-of-path
position where the circle starts, and the last generated sample returns
exactly to it: `cos_b(steps) = cos(2*pi)` and `sin_b(steps) = sin(2*pi)`.
Exact equality in real arithmetic implies the claimed equality within
numeric tolerance. -/
theorem C7_circle_first_last (x1 y1 : ℝ) (c : ℝ × ℝ × ℝ) (radius : ℝ) (steps : ℕ)
    (hr : radius ≠ 0) (hs : steps ≠ 0) :
    ((List.range (steps + 1)).map (circleX x1 y1 c radius steps)).getD 0 0 = x1 ∧
    ((List.range (steps + 1)).map (circleY x1 y1 c radius steps)).getD 0 0 = y1 ∧
    ((List.range (steps + 1)).map (circleX x1 y1 c radius steps)).getLast? = some x1 ∧
    ((List.range (steps + 1)).map (circleY x1 y1 c radius steps)).getLast? = some y1 := by
  have hx0 : circleX x1 y1 c radius steps 0 = x1 := by
    unfold circleX
    rw [Nat.cast_zero, mul_zero, Real.cos_zero, Real.sin_zero, mul_one, mul_zero,
      sub_zero, div_mul_cancel₀ _ hr]
    ring
  have hy0 : circleY x1 y1 c radius steps 0 = y1 := by
    unfold circleY
    rw [Nat.cast_zero, mul_zero, Real.cos_zero, Real.sin_zero, mul_one, mul_zero,
      add_zero, div_mul_cancel₀ _ hr]
    ring
  have hang : 2 * Real.pi / (steps : ℝ) * (steps : ℝ) = 2 * Real.pi :=
    div_mul_cancel₀ _ (Nat.cast_ne_zero.mpr hs)
  have hxN : circleX x1 y1 c radius steps steps = x1 := by
    unfold circleX
    rw [hang, Real.cos_two_pi, Real.sin_two_pi, mul_one, mul_zero, sub_zero,
      div_mul_cancel₀ _ hr]
    ring
  have hyN : circleY x1 y1 c radius steps steps = y1 := by
    unfold circleY
    rw [hang, Real.cos_two_pi, Real.sin_two_pi, mul_one, mul_zero, add_zero,
      div_mul_cancel₀ _ hr]
    ring
  refine ⟨?_, ?_, ?_, ?_⟩
  · rw [List.range_succ_eq_map, List.map_cons, List.getD_cons_zero]
    exact hx0
  · rw [List.range_succ_eq_map, List.map_cons, List.getD_cons_zero]
    exact hy0
  · rw [List.range_succ, List.map_append, List.map_singleton, List.getLast?_concat, hxN]
  · rw [List.range_succ, List.map_append, List.map_singleton, List.getLast?_concat, hyN]

/-- Witness for C7: the unit circle about the origin entered at `(1, 0)`
with 4 steps starts and ends at `(1, 0)`. -/
theorem C7_circle_first_last_witness :
    ((List.range (4 + 1)).map (circleX 1 0 (0, 0, 0) 1 4)).getD 0 0 = 1 ∧
    ((List.range (4 + 1)).map (circleY 1 0 (0, 0, 0) 1 4)).getD 0 0 = 0 ∧
    ((List.range (4 + 1)).map (circleX 1 0 (0, 0, 0) 1 4)).getLast? = some 1 ∧
    ((List.range (4 + 1)).map (circleY 1 0 (0, 0, 0) 1 4)).getLast? = some 0 :=
  C7_circle_first_last 1 0 (0, 0, 0) 1 4 (by norm_num) (by norm_num)

/-- Claim C5 (amended): in the heading computations of `generate_states`
and `generate_yaw_filtered`, the previous sample's heading is held exactly
when the computed heading vector is the zero vector (equivalently, its
`norm2` is exactly zero); any nonzero heading — including one of magnitude
below `1e-3` — is normalized, and that division always has a strictly
nonzero divisor.  (The epsilon rule the claim states does not exist in the
code; see the counterexample.) -/
theorem C5_amended_guard (hd prev : ℝ × ℝ) :
    (norm2 hd = 0 ↔ hd = (0, 0)) ∧
    (hd = (0, 0) → guardHeading hd prev = prev) ∧
    (hd ≠ (0, 0) → norm2 hd ≠ 0 ∧
      guardHeading hd prev = (hd.1 / norm2 hd, hd.2 / norm2 hd)) := by
  have hiff : norm2 hd = 0 ↔ hd = (0, 0) := by
    unfold norm2
    rw [Real.sqrt_eq_zero']
    constructor
    · intro hle
      have e1 : (0 - hd.1) ^ 2 = 0 := by
        nlinarith [sq_nonneg (0 - hd.1), sq_nonneg (0 - hd.2)]
      have e2 : (0 - hd.2) ^ 2 = 0 := by
        nlinarith [sq_nonneg (0 - hd.1), sq_nonneg (0 - hd.2)]
      have f1 : hd.1 = 0 := by have := sq_eq_zero_iff.mp e1; linarith
      have f2 : hd.2 = 0 := by have := sq_eq_zero_iff.mp e2; linarith
      exact Prod.ext_iff.mpr ⟨f1, f2⟩
    · intro h
      rw [h]
      norm_num
  refine ⟨hiff, ?_, ?_⟩
  · intro h
    unfold guardHeading
    rw [if_neg (fun hne => hne (hiff.mpr h))]
  · intro h
    refine ⟨fun h0 => h (hiff.mp h0), ?_⟩
    unfold guardHeading
    rw [if_pos (fun h0 => h (hiff.mp h0))]

/-- Witness for the amended C5: the heading `(3, 4)` has nonzero norm and
is normalized rather than held. -/
theorem C5_amended_guard_witness :
    norm2 ((3 : ℝ), (4 : ℝ)) ≠ 0 ∧
    guardHeading ((3 : ℝ), (4 : ℝ)) (0, 1) =
      ((3 : ℝ) / norm2 (3, 4), (4 : ℝ) / norm2 (3, 4)) :=
  (C5_amended_guard (3, 4) (0, 1)).2.2 (by simp [Prod.ext_iff])

/-- Counterexample to C5 as stated: with the `'auto'` policy and two
positions `1/10000` apart, the computed heading vector has magnitude
`1/10000 < 1/1000`, yet the code normalizes it to `(1, 0)` instead of
holding the previous heading `(0, 0)`: the hold triggers only at exactly
zero, and the normalization divides by the near-zero norm `1/10000`. -/
theorem C5_counterexample :
    norm2 (rawHeading ⟨YawKind.auto, (1, 0)⟩ (0, 0) (1/10000, 0)) < 1/1000 ∧
    norm2 (rawHeading ⟨YawKind.auto, (1, 0)⟩ (0, 0) (1/10000, 0)) ≠ 0 ∧
    headingTrace ⟨YawKind.auto, (1, 0)⟩ [(0, 0), (1/10000, 0)] = [(1, 0)] ∧
    headingTrace ⟨YawKind.auto, (1, 0)⟩ [(0, 0), (1/10000, 0)] ≠ [(0, 0)] := by
  have hraw : rawHeading ⟨YawKind.auto, (1, 0)⟩ ((0 : ℝ), (0 : ℝ)) (1/10000, 0) =
      ((1/10000 : ℝ), (0 : ℝ)) := by
    unfold rawHeading
    norm_num
  have hn : norm2 ((1/10000 : ℝ), (0 : ℝ)) = 1/10000 := by
    unfold norm2
    rw [show ((0 : ℝ) - 1/10000) ^ 2 + ((0 : ℝ) - 0) ^ 2 = (1/10000) ^ 2 by ring,
      Real.sqrt_sq (by norm_num)]
  have htr : headingTrace ⟨YawKind.auto, (1, 0)⟩ [(0, 0), (1/10000, 0)] = [(1, 0)] := by
    unfold headingTrace
    simp only [headingTraceAux]
    rw [hraw]
    unfold guardHeading
    rw [if_pos (by rw [hn]; norm_num)]
    rw [hn]
    norm_num
  refine ⟨?_, ?_, htr, ?_⟩
  · rw [hraw, hn]; norm_num
  · rw [hraw, hn]; norm_num
  · rw [htr]
    simp [Prod.ext_iff]


end TrajGen
